import Mathlib

/-!
Shallow embedding of the application scheduling and execution core of
`src/job_bot.py` (the `apply_job` route, `execute_application`,
`schedule_application`, and the `Application` model backed by SQLAlchemy),
together with proofs about the claims of the specification.

Modelling conventions:
* Database rows are Lean structures; the `Application` table is a list of
  rows, and `Application.query.filter_by(user_id=..., job_id=...).first()`
  becomes `find?` on that list.  `User.query.get` / `Job.query.get` become
  membership of the id in the list of existing user / job ids (the other
  columns of `User` and `Job` play no role in the claims).
* `datetime.utcnow()` is a `Nat` parameter `now` passed to each operation.
* `datetime.strptime(schedule_time, fmt)` is abstracted as a parse outcome:
  the route receives `none` (no `schedule_time` / falsy value),
  `some (SchedTime.valid t)` (strptime succeeds and yields the instant `t`),
  or `some SchedTime.malformed` (strptime raises `ValueError`).
* `run_selenium_apply` is the external executor; its outcome is a `Bool`
  parameter `execOk`.  When it raises, the Python exception propagates out
  of `execute_application` untouched (there is no try/except around it),
  modelled by `Except Unit`.
* The APScheduler job store is a list of `(id, task)` pairs;
  `scheduler.add_job(..., id=key, replace_existing=True)` removes any task
  with the same id and appends the new one.
-/

namespace JobBot

/-- A row of the `Application` table: `id` primary key, `user_id`, `job_id`,
`status` (a string column, default `'Pending'`), `applied_at` (nullable
datetime). -/
structure Application where
  id : Nat
  user_id : Nat
  job_id : Nat
  status : String
  applied_at : Option Nat
  deriving DecidableEq, Repr

/-- One APScheduler date-trigger job: the `run_date` and the
`args=[user_id, job_id]` passed to `execute_application`. -/
structure SchedTask where
  run_date : Nat
  arg_user : Nat
  arg_job : Nat
  deriving DecidableEq, Repr

/-- The state of the system: the `User` and `Job` tables (only ids matter),
the `Application` table, the scheduler's job store, and the autoincrement
counter for the next `Application.id`. -/
structure St where
  users : List Nat
  jobs : List Nat
  apps : List Application
  sched : List (String × SchedTask)
  nextId : Nat
  deriving DecidableEq, Repr

/-- Outcome of `datetime.strptime(schedule_time, '%Y-%m-%d %H:%M:%S')` on a
present (truthy) `schedule_time`: either it parses to an instant or it
raises `ValueError`. -/
inductive SchedTime where
  | valid (t : Nat)
  | malformed
  deriving DecidableEq, Repr

/-- The possible HTTP-level results of the `/apply_job` route.
`invalidIds` is `('Invalid IDs', 400)` (the spec's NotFound);
`alreadyApplied` is `('Already applied', 400)` (DuplicateApplication);
`scheduled t` is `'Scheduled at ...'` with effective fire time `t`;
`invalidDatetime` is `('Invalid datetime', 400)` (InvalidSchedule);
`appliedImmediately` is `'Applied immediately'`; `executorError` is an
uncaught exception escaping the route (Flask 500). -/
inductive ApplyResult where
  | invalidIds
  | alreadyApplied
  | scheduled (t : Nat)
  | invalidDatetime
  | appliedImmediately
  | executorError
  deriving DecidableEq, Repr

/-- `Application.query.filter_by(user_id=uid, job_id=jid).first()`. -/
def findApp (apps : List Application) (uid jid : Nat) : Option Application :=
  apps.find? (fun a => a.user_id = uid ∧ a.job_id = jid)

/-- Mutating the row returned by `.first()`: set `status = 'Applied'` and
`applied_at = now` on the first row matching `(uid, jid)`. -/
def updateFirst (apps : List Application) (uid jid now : Nat) : List Application :=
  match apps with
  | [] => []
  | a :: rest =>
    if a.user_id = uid ∧ a.job_id = jid then
      { a with status := "Applied", applied_at := some now } :: rest
    else
      a :: updateFirst rest uid jid now

/-- The scheduler job id `f"apply_\x7buser_id\x7d_\x7bjob_id\x7d"` built in
`schedule_application`. -/
def applyKey (uid jid : Nat) : String :=
  "apply_" ++ toString uid ++ "_" ++ toString jid

/-- `scheduler.add_job(execute_application, 'date', run_date=t,
args=[uid, jid], id=key, replace_existing=True)`: any job with the same id
is replaced by the new one. -/
def addJobReplace (sched : List (String × SchedTask)) (key : String)
    (t uid jid : Nat) : List (String × SchedTask) :=
  sched.filter (fun p => p.1 ≠ key) ++ [(key, ⟨t, uid, jid⟩)]

/-- `schedule_application(user_id, job_id, run_time)` from the source:
registers `execute_application` under id `apply_{user_id}_{job_id}` with
`replace_existing=True`. -/
def schedule_application (s : St) (uid jid run_time : Nat) : St :=
  { s with sched := addJobReplace s.sched (applyKey uid jid) run_time uid jid }

/-- `execute_application(user_id, job_id)` from the source.  Returns early
(store untouched) when either id does not resolve; then runs the selenium
step, whose exception (if any) propagates — `Except.error ()` — before any
`Application` query happens; on success it updates the first matching row
to `('Applied', now)`, or inserts a fresh row with status `'Applied'` when
no row matches, and commits. -/
def execute_application (uid jid now : Nat) (execOk : Bool) (s : St) :
    Except Unit St :=
  if uid ∈ s.users ∧ jid ∈ s.jobs then
    if execOk then
      match findApp s.apps uid jid with
      | some _ => Except.ok { s with apps := updateFirst s.apps uid jid now }
      | none => Except.ok { s with
          apps := s.apps ++ [⟨s.nextId, uid, jid, "Applied", some now⟩],
          nextId := s.nextId + 1 }
    else
      Except.error ()
  else
    Except.ok s

/-- Insertion of the fresh `Application(user_id=uid, job_id=jid)` row in
`apply_job_route` (status takes the column default `'Pending'`,
`applied_at` is NULL). -/
def createRecord (uid jid : Nat) (s : St) : St :=
  { s with
    apps := s.apps ++ [⟨s.nextId, uid, jid, "Pending", none⟩],
    nextId := s.nextId + 1 }

/-- `apply_job_route` from the source (the RequestApplication operation):
resolve ids (`'Invalid IDs'` when either is missing), reject when a row for
the pair already exists (`'Already applied'`), insert the Pending row and
commit, then either schedule (parse success), report `'Invalid datetime'`
(parse failure — note the row is already committed), or execute
immediately. -/
def apply_job_route (uid jid : Nat) (schedTime : Option SchedTime)
    (now : Nat) (execOk : Bool) (s : St) : ApplyResult × St :=
  if uid ∈ s.users ∧ jid ∈ s.jobs then
    if (findApp s.apps uid jid).isSome then
      (ApplyResult.alreadyApplied, s)
    else
      let s1 := createRecord uid jid s
      match schedTime with
      | some (SchedTime.valid t) =>
          (ApplyResult.scheduled t, schedule_application s1 uid jid t)
      | some SchedTime.malformed => (ApplyResult.invalidDatetime, s1)
      | none =>
          match execute_application uid jid now execOk s1 with
          | Except.ok s2 => (ApplyResult.appliedImmediately, s2)
          | Except.error _ => (ApplyResult.executorError, s1)
  else
    (ApplyResult.invalidIds, s)

/-- States reachable from an initial state (given `User`/`Job` tables, no
applications, empty scheduler) by any sequence of RequestApplication
(`apply_job_route`) calls and Execute (`execute_application`) invocations —
the latter both for the immediate path and for scheduler firings.  A failing
Execute leaves the store unchanged (the exception propagates before any
write), so it adds no new state. -/
inductive Reachable (users jobs : List Nat) : St → Prop where
  | init : Reachable users jobs ⟨users, jobs, [], [], 0⟩
  | request (s : St) (uid jid : Nat) (st : Option SchedTime) (now : Nat)
      (ok : Bool) :
      Reachable users jobs s →
      Reachable users jobs (apply_job_route uid jid st now ok s).2
  | exec (s s' : St) (uid jid now : Nat) (ok : Bool) :
      Reachable users jobs s →
      execute_application uid jid now ok s = Except.ok s' →
      Reachable users jobs s'

/-- The number of `Application` rows for the pair `(uid, jid)`. -/
def countPair (apps : List Application) (uid jid : Nat) : Nat :=
  (apps.filter (fun a => a.user_id = uid ∧ a.job_id = jid)).length

/-- Invariant I1: at most one `Application` row per `(user_id, job_id)`. -/
def atMostOnePerPair (s : St) : Prop :=
  ∀ uid jid, countPair s.apps uid jid ≤ 1

/-- Every stored row's ids resolve against the `User` / `Job` tables. -/
def recordsResolvable (s : St) : Prop :=
  ∀ a ∈ s.apps, a.user_id ∈ s.users ∧ a.job_id ∈ s.jobs

/-- The store invariant maintained by every operation: I1 plus
resolvability of all stored ids. -/
def storeInv (s : St) : Prop :=
  atMostOnePerPair s ∧ recordsResolvable s

/-- The tasks registered in the scheduler under a given job id.  The
scheduler fires each stored date-trigger task exactly once, at its
`run_date`, so this list says what will fire for the key and when. -/
def tasksFor (sched : List (String × SchedTask)) (key : String) :
    List SchedTask :=
  (sched.filter (fun p => p.1 = key)).map Prod.snd

/-- `apps'` retains (at least) every row of `apps`, identified by primary
key and pair: no row is deleted. -/
def keysPreserved (apps apps' : List Application) : Prop :=
  ∀ a ∈ apps, ∃ a' ∈ apps',
    a'.id = a.id ∧ a'.user_id = a.user_id ∧ a'.job_id = a.job_id

/-! ### Helper lemmas -/

theorem countPair_append (l l' : List Application) (u j : Nat) :
    countPair (l ++ l') u j = countPair l u j + countPair l' u j := by
  simp [countPair, List.filter_append]

theorem findApp_none_countPair {apps : List Application} {u j : Nat}
    (h : findApp apps u j = none) : countPair apps u j = 0 := by
  rw [findApp, List.find?_eq_none] at h
  simp only [countPair, List.length_eq_zero, List.filter_eq_nil_iff]
  exact h

theorem countPair_updateFirst (apps : List Application) (uid jid now u j : Nat) :
    countPair (updateFirst apps uid jid now) u j = countPair apps u j := by
  induction apps with
  | nil => rfl
  | cons a rest ih =>
    by_cases h : a.user_id = uid ∧ a.job_id = jid
    · simp only [updateFirst, if_pos h, countPair, List.filter_cons]
      by_cases h' : a.user_id = u ∧ a.job_id = j <;> simp [h']
    · simpa only [updateFirst, if_neg h, countPair, List.filter_cons]
        using by by_cases h' : a.user_id = u ∧ a.job_id = j <;>
          simp [h', countPair] at ih ⊢ <;> omega

theorem mem_updateFirst {apps : List Application} {uid jid now : Nat}
    {a' : Application} (h : a' ∈ updateFirst apps uid jid now) :
    ∃ a ∈ apps, a'.id = a.id ∧ a'.user_id = a.user_id ∧
      a'.job_id = a.job_id := by
  induction apps with
  | nil => simp [updateFirst] at h
  | cons a rest ih =>
    by_cases hc : a.user_id = uid ∧ a.job_id = jid
    · simp only [updateFirst, if_pos hc, List.mem_cons] at h
      rcases h with h | h
      · exact ⟨a, List.mem_cons_self a rest, by simp [h]⟩
      · exact ⟨a', List.mem_cons_of_mem a h, rfl, rfl, rfl⟩
    · simp only [updateFirst, if_neg hc, List.mem_cons] at h
      rcases h with h | h
      · exact ⟨a, List.mem_cons_self a rest, by simp [h]⟩
      · obtain ⟨b, hb, hk⟩ := ih h
        exact ⟨b, List.mem_cons_of_mem a hb, hk⟩

theorem keysPreserved_updateFirst (apps : List Application)
    (uid jid now : Nat) : keysPreserved apps (updateFirst apps uid jid now) := by
  intro a ha
  induction apps with
  | nil => simp at ha
  | cons b rest ih =>
    by_cases hc : b.user_id = uid ∧ b.job_id = jid
    · simp only [updateFirst, if_pos hc]
      rcases List.mem_cons.mp ha with h | h
      · exact ⟨_, List.mem_cons_self _ _, by simp [h]⟩
      · exact ⟨a, List.mem_cons_of_mem _ h, rfl, rfl, rfl⟩
    · simp only [updateFirst, if_neg hc]
      rcases List.mem_cons.mp ha with h | h
      · exact ⟨b, List.mem_cons_self _ _, by simp [h]⟩
      · obtain ⟨a', ha', hk⟩ := ih h
        exact ⟨a', List.mem_cons_of_mem _ ha', hk⟩

theorem keysPreserved_append (apps l : List Application) :
    keysPreserved apps (apps ++ l) := by
  intro a ha
  exact ⟨a, List.mem_append_left _ ha, rfl, rfl, rfl⟩

theorem findApp_append_of_none {l : List Application} {u j : Nat}
    (h : findApp l u j = none) (l' : List Application) :
    findApp (l ++ l') u j = findApp l' u j := by
  induction l with
  | nil => rfl
  | cons a rest ih =>
    rw [findApp, List.find?] at h
    rcases hd : decide (a.user_id = u ∧ a.job_id = j) with _ | _
    · rw [hd] at h
      rw [List.cons_append, findApp, List.find?, hd]
      exact ih h
    · rw [hd] at h
      exact absurd h (by simp)

theorem findApp_updateFirst {apps : List Application} {uid jid : Nat}
    {a : Application} (h : findApp apps uid jid = some a) (now : Nat) :
    findApp (updateFirst apps uid jid now) uid jid =
      some { a with status := "Applied", applied_at := some now } := by
  induction apps with
  | nil => simp [findApp] at h
  | cons b rest ih =>
    by_cases hc : b.user_id = uid ∧ b.job_id = jid
    · rw [findApp, List.find?] at h
      rw [decide_eq_true hc] at h
      cases h
      simp only [updateFirst, if_pos hc, findApp, List.find?]
      rw [decide_eq_true (by simpa using hc)]
    · rw [findApp, List.find?] at h
      rw [decide_eq_false hc] at h
      simp only [updateFirst, if_neg hc, findApp, List.find?]
      rw [decide_eq_false hc]
      exact ih h

/-- Neither operation changes the `User` / `Job` tables. -/
theorem execute_application_frame {uid jid now : Nat} {ok : Bool}
    {s s' : St} (h : execute_application uid jid now ok s = Except.ok s') :
    s'.users = s.users ∧ s'.jobs = s.jobs ∧ s'.sched = s.sched := by
  unfold execute_application at h
  split at h
  · split at h
    · split at h <;> · cases h; exact ⟨rfl, rfl, rfl⟩
    · cases h
  · cases h; exact ⟨rfl, rfl, rfl⟩

theorem apply_job_route_frame (uid jid : Nat) (st : Option SchedTime)
    (now : Nat) (ok : Bool) (s : St) :
    ((apply_job_route uid jid st now ok s).2).users = s.users ∧
    ((apply_job_route uid jid st now ok s).2).jobs = s.jobs := by
  unfold apply_job_route
  split
  · split
    · exact ⟨rfl, rfl⟩
    · rcases st with _ | st
      · rcases he : execute_application uid jid now ok (createRecord uid jid s)
          with _ | s2 <;> simp only [he]
        · exact ⟨rfl, rfl⟩
        · obtain ⟨h1, h2, _⟩ := execute_application_frame he
          exact ⟨h1, h2⟩
      · rcases st with t | _ <;> exact ⟨rfl, rfl⟩
  · exact ⟨rfl, rfl⟩

theorem countPair_singleton (a : Application) (u j : Nat) :
    countPair [a] u j = if a.user_id = u ∧ a.job_id = j then 1 else 0 := by
  by_cases h : a.user_id = u ∧ a.job_id = j <;> simp [countPair, h]

/-- Inserting one row for a pair that has no row yet preserves the store
invariant (covers both the Pending insert of the route and the Applied
insert of `execute_application`). -/
theorem storeInv_insert (uid jid : Nat) (s : St) (status : String)
    (appliedAt : Option Nat) (hu : uid ∈ s.users) (hj : jid ∈ s.jobs)
    (hnew : findApp s.apps uid jid = none) (h : storeInv s) :
    storeInv { s with
      apps := s.apps ++ [⟨s.nextId, uid, jid, status, appliedAt⟩],
      nextId := s.nextId + 1 } := by
  refine ⟨fun u j => ?_, fun a ha => ?_⟩
  · show countPair (s.apps ++ [⟨s.nextId, uid, jid, status, appliedAt⟩]) u j ≤ 1
    rw [countPair_append, countPair_singleton]
    by_cases hp : u = uid ∧ j = jid
    · have h0 : countPair s.apps u j = 0 := by
        rw [hp.1, hp.2]; exact findApp_none_countPair hnew
      rw [h0]
      split <;> omega
    · have : ¬((⟨s.nextId, uid, jid, status, appliedAt⟩ : Application).user_id = u ∧
          (⟨s.nextId, uid, jid, status, appliedAt⟩ : Application).job_id = j) := by
        intro hc
        exact hp ⟨hc.1.symm, hc.2.symm⟩
      rw [if_neg this]
      have := h.1 u j
      omega
  · rcases List.mem_append.mp ha with hin | hin
    · exact h.2 a hin
    · rcases List.mem_singleton.mp hin with rfl
      exact ⟨hu, hj⟩

theorem execute_application_inv {uid jid now : Nat} {ok : Bool} {s s' : St}
    (h : storeInv s) (he : execute_application uid jid now ok s = Except.ok s') :
    storeInv s' := by
  unfold execute_application at he
  split at he
  case isTrue hres =>
    split at he
    case isTrue =>
      split at he
      case h_1 a ha =>
        cases he
        refine ⟨fun u j => ?_, fun a' ha' => ?_⟩
        · show countPair (updateFirst s.apps uid jid now) u j ≤ 1
          rw [countPair_updateFirst]
          exact h.1 u j
        · obtain ⟨b, hb, _, h2, h3⟩ := mem_updateFirst ha'
          have := h.2 b hb
          rw [h2, h3]
          exact this
      case h_2 ha =>
        cases he
        exact storeInv_insert uid jid s "Applied" (some now)
          hres.1 hres.2 ha h
    case isFalse => cases he
  case isFalse =>
    cases he
    exact h

theorem apply_job_route_inv (uid jid : Nat) (st : Option SchedTime)
    (now : Nat) (ok : Bool) {s : St} (h : storeInv s) :
    storeInv (apply_job_route uid jid st now ok s).2 := by
  unfold apply_job_route
  split
  case isTrue hres =>
    split
    case isTrue => exact h
    case isFalse hnone =>
      have hnone' : findApp s.apps uid jid = none := by
        cases hfa : findApp s.apps uid jid
        · rfl
        · rw [hfa] at hnone; simp at hnone
      have h1 : storeInv (createRecord uid jid s) :=
        storeInv_insert uid jid s "Pending" none hres.1 hres.2 hnone' h
      rcases st with _ | st
      · rcases he : execute_application uid jid now ok (createRecord uid jid s)
          with _ | s2 <;> simp only [he]
        · exact h1
        · exact execute_application_inv h1 he
      · rcases st with t | _
        · exact h1
        · exact h1
  case isFalse => exact h

/-- Every reachable state satisfies the store invariant. -/
theorem reachable_storeInv {users jobs : List Nat} {s : St}
    (h : Reachable users jobs s) : storeInv s := by
  induction h with
  | init =>
    exact ⟨fun u j => by simp [countPair], fun a ha => by simp at ha⟩
  | request s uid jid st now ok _ ih =>
    exact apply_job_route_inv uid jid st now ok ih
  | exec s s' uid jid now ok _ he ih =>
    exact execute_application_inv ih he

/-- Behaviour of `execute_application` when both ids resolve and a row for
the pair exists: success updates the first matching row, failure propagates
the selenium exception before any store access. -/
theorem execute_application_found {uid jid now : Nat} {s : St}
    {a : Application} (hu : uid ∈ s.users) (hj : jid ∈ s.jobs)
    (hfind : findApp s.apps uid jid = some a) :
    execute_application uid jid now true s =
      Except.ok { s with apps := updateFirst s.apps uid jid now } ∧
    execute_application uid jid now false s = Except.error () := by
  constructor
  · unfold execute_application
    rw [if_pos ⟨hu, hj⟩, hfind]
    rfl
  · unfold execute_application
    rw [if_pos ⟨hu, hj⟩]
    rfl

theorem keysPreserved_refl (apps : List Application) :
    keysPreserved apps apps :=
  fun a ha => ⟨a, ha, rfl, rfl, rfl⟩

theorem keysPreserved_trans {l1 l2 l3 : List Application}
    (h12 : keysPreserved l1 l2) (h23 : keysPreserved l2 l3) :
    keysPreserved l1 l3 := by
  intro a ha
  obtain ⟨b, hb, hb1, hb2, hb3⟩ := h12 a ha
  obtain ⟨c, hc, hc1, hc2, hc3⟩ := h23 b hb
  exact ⟨c, hc, hb1 ▸ hc1, hb2 ▸ hc2, hb3 ▸ hc3⟩

theorem execute_application_keysPreserved {uid jid now : Nat} {ok : Bool}
    {s s' : St} (he : execute_application uid jid now ok s = Except.ok s') :
    keysPreserved s.apps s'.apps := by
  unfold execute_application at he
  split at he
  · split at he
    · split at he
      · cases he
        exact keysPreserved_updateFirst s.apps uid jid now
      · cases he
        exact keysPreserved_append s.apps _
    · cases he
  · cases he
    exact keysPreserved_refl s.apps

theorem apply_job_route_keysPreserved (uid jid : Nat)
    (st : Option SchedTime) (now : Nat) (ok : Bool) (s : St) :
    keysPreserved s.apps ((apply_job_route uid jid st now ok s).2).apps := by
  unfold apply_job_route
  split
  · split
    · exact keysPreserved_refl s.apps
    · have hcr : keysPreserved s.apps (createRecord uid jid s).apps :=
        keysPreserved_append s.apps _
      rcases st with _ | st
      · rcases he : execute_application uid jid now ok (createRecord uid jid s)
          with _ | s2 <;> simp only [he]
        · exact hcr
        · exact keysPreserved_trans hcr (execute_application_keysPreserved he)
      · rcases st with t | _
        · exact hcr
        · exact hcr
  · exact keysPreserved_refl s.apps

theorem filter_ne_addJobReplace (sched : List (String × SchedTask))
    (key : String) (t u j : Nat) :
    (addJobReplace sched key t u j).filter (fun p => p.1 ≠ key) =
      sched.filter (fun p => p.1 ≠ key) := by
  simp [addJobReplace, List.filter_append, List.filter_filter]

theorem tasksFor_addJobReplace (sched : List (String × SchedTask))
    (key : String) (t u j : Nat) :
    tasksFor (addJobReplace sched key t u j) key = [⟨t, u, j⟩] := by
  have hnil : (sched.filter (fun p => p.1 ≠ key)).filter
      (fun p : String × SchedTask => p.1 = key) = [] := by
    apply List.filter_eq_nil_iff.mpr
    intro a ha
    have := List.of_mem_filter ha
    simpa using this
  simp [tasksFor, addJobReplace, List.filter_append, hnil]

/-! ### Claims -/

/-- C1: for every (userId, jobId) pair and every sequence of
RequestApplication (`apply_job_route`) and Execute (`execute_application`)
operations, at most one ApplicationRecord for that pair exists in the store
at any observation point. -/
theorem C1_at_most_one_record_per_pair (users jobs : List Nat) (s : St)
    (h : Reachable users jobs s) : atMostOnePerPair s :=
  (reachable_storeInv h).1

theorem C1_witness :
    Reachable [1] [2] ((apply_job_route 1 2 none 0 true ⟨[1], [2], [], [], 0⟩).2) ∧
    atMostOnePerPair ((apply_job_route 1 2 none 0 true ⟨[1], [2], [], [], 0⟩).2) :=
  ⟨Reachable.request _ 1 2 none 0 true Reachable.init,
   C1_at_most_one_record_per_pair [1] [2] _
     (Reachable.request _ 1 2 none 0 true Reachable.init)⟩

/-- C4: in any reachable state, a RequestApplication call for a pair that
already has an ApplicationRecord (whatever its status, including Pending)
fails with DuplicateApplication (`'Already applied'`) and leaves the store —
records and scheduler alike — unchanged.  (Reachability supplies the fact
that the stored ids resolve, which holds in every state the system can be
in; the route's id check therefore cannot mask the duplicate check.) -/
theorem C4_duplicate_application (users jobs : List Nat) (s : St)
    (uid jid : Nat) (h : Reachable users jobs s)
    (hdup : (findApp s.apps uid jid).isSome = true)
    (st : Option SchedTime) (now : Nat) (ok : Bool) :
    apply_job_route uid jid st now ok s = (ApplyResult.alreadyApplied, s) := by
  obtain ⟨a, ha⟩ := Option.isSome_iff_exists.mp hdup
  have hmem : a ∈ s.apps := List.mem_of_find?_eq_some ha
  have hpred : a.user_id = uid ∧ a.job_id = jid := by
    have := List.find?_some ha
    simpa using this
  have hres := (reachable_storeInv h).2 a hmem
  unfold apply_job_route
  rw [if_pos ⟨hpred.1 ▸ hres.1, hpred.2 ▸ hres.2⟩, if_pos hdup]

theorem C4_witness :
    Reachable [1] [2]
      ((apply_job_route 1 2 (some SchedTime.malformed) 0 true ⟨[1], [2], [], [], 0⟩).2) ∧
    (findApp ((apply_job_route 1 2 (some SchedTime.malformed) 0 true
        ⟨[1], [2], [], [], 0⟩).2).apps 1 2).isSome = true ∧
    apply_job_route 1 2 none 9 true
        ((apply_job_route 1 2 (some SchedTime.malformed) 0 true ⟨[1], [2], [], [], 0⟩).2) =
      (ApplyResult.alreadyApplied,
        (apply_job_route 1 2 (some SchedTime.malformed) 0 true ⟨[1], [2], [], [], 0⟩).2) :=
  have hr : Reachable [1] [2]
      ((apply_job_route 1 2 (some SchedTime.malformed) 0 true ⟨[1], [2], [], [], 0⟩).2) :=
    Reachable.request _ 1 2 (some SchedTime.malformed) 0 true Reachable.init
  ⟨hr, rfl, C4_duplicate_application [1] [2] _ 1 2 hr rfl none 9 true⟩

/-- C7: a RequestApplication call whose userId or jobId does not resolve
fails with NotFound (`'Invalid IDs'`), creates no ApplicationRecord and
schedules no task: the entire store is returned unchanged. -/
theorem C7_unresolved_ids_rejected (uid jid : Nat) (st : Option SchedTime)
    (now : Nat) (ok : Bool) (s : St)
    (h : ¬(uid ∈ s.users ∧ jid ∈ s.jobs)) :
    apply_job_route uid jid st now ok s = (ApplyResult.invalidIds, s) := by
  unfold apply_job_route
  rw [if_neg h]

theorem C7_witness :
    ¬((3 : Nat) ∈ [1] ∧ (2 : Nat) ∈ [2]) ∧
    apply_job_route 3 2 none 0 true ⟨[1], [2], [], [], 0⟩ =
      (ApplyResult.invalidIds, ⟨[1], [2], [], [], 0⟩) :=
  ⟨by decide, C7_unresolved_ids_rejected 3 2 none 0 true _ (by decide)⟩

/-- C10: an Execute call whose userId or jobId does not resolve returns
normally with the store unchanged, and its result does not depend on the
external executor's outcome — the executor is never invoked on this path
(`execute_application` returns before `run_selenium_apply`). -/
theorem C10_execute_unresolved_noop (uid jid now : Nat) (s : St)
    (h : ¬(uid ∈ s.users ∧ jid ∈ s.jobs)) :
    ∀ ok : Bool, execute_application uid jid now ok s = Except.ok s := by
  intro ok
  unfold execute_application
  rw [if_neg h]

theorem C10_witness :
    ¬((3 : Nat) ∈ [1] ∧ (2 : Nat) ∈ [2]) ∧
    execute_application 3 2 7 true ⟨[1], [2], [], [], 0⟩ =
      Except.ok ⟨[1], [2], [], [], 0⟩ ∧
    execute_application 3 2 7 false ⟨[1], [2], [], [], 0⟩ =
      Except.ok ⟨[1], [2], [], [], 0⟩ :=
  ⟨by decide, C10_execute_unresolved_noop 3 2 7 _ (by decide) true,
   C10_execute_unresolved_noop 3 2 7 _ (by decide) false⟩

/-- C2 counterexample: `execute_application` performs no terminal-status
check.  On a store whose only record for (1, 2) is terminal, a successful
Execute rewrites it: a `Failed` record becomes `Applied` (the status moves
out of a terminal value, reversing I2), and an `Applied` record gets its
`applied_at` overwritten with the new call time — the record is not left
unchanged, refuting the claim. -/
theorem C2_counterexample :
    execute_application 1 2 5 true ⟨[1], [2], [⟨0, 1, 2, "Failed", some 0⟩], [], 1⟩ =
      Except.ok ⟨[1], [2], [⟨0, 1, 2, "Applied", some 5⟩], [], 1⟩ ∧
    execute_application 1 2 5 true ⟨[1], [2], [⟨0, 1, 2, "Applied", some 0⟩], [], 1⟩ =
      Except.ok ⟨[1], [2], [⟨0, 1, 2, "Applied", some 5⟩], [], 1⟩ :=
  ⟨rfl, rfl⟩

/-- C2 amended: Execute is not idempotent on terminal records.  Whenever
both ids resolve and a record for the pair exists — even one whose status
is already `Applied` or `Failed` — a successful Execute re-runs the
executor and overwrites the first matching record to status `Applied` with
`applied_at` set to the new call time, while a failing Execute propagates
the executor's exception (leaving the store unchanged). -/
theorem C2_execute_overwrites_terminal (uid jid now : Nat) (s : St)
    (a : Application) (hu : uid ∈ s.users) (hj : jid ∈ s.jobs)
    (hfind : findApp s.apps uid jid = some a)
    (_hterm : a.status = "Applied" ∨ a.status = "Failed") :
    execute_application uid jid now true s =
      Except.ok { s with apps := updateFirst s.apps uid jid now } ∧
    findApp (updateFirst s.apps uid jid now) uid jid =
      some { a with status := "Applied", applied_at := some now } ∧
    execute_application uid jid now false s = Except.error () :=
  ⟨(execute_application_found hu hj hfind).1,
   findApp_updateFirst hfind now,
   (execute_application_found hu hj hfind).2⟩

theorem C2_witness :
    (1 : Nat) ∈ [1] ∧ (2 : Nat) ∈ [2] ∧
    findApp [⟨0, 1, 2, "Failed", some 0⟩] 1 2 = some ⟨0, 1, 2, "Failed", some 0⟩ ∧
    ("Failed" = "Applied" ∨ ("Failed" : String) = "Failed") ∧
    (execute_application 1 2 5 true ⟨[1], [2], [⟨0, 1, 2, "Failed", some 0⟩], [], 1⟩ =
       Except.ok { (⟨[1], [2], [⟨0, 1, 2, "Failed", some 0⟩], [], 1⟩ : St) with
         apps := updateFirst [⟨0, 1, 2, "Failed", some 0⟩] 1 2 5 } ∧
     findApp (updateFirst [⟨0, 1, 2, "Failed", some 0⟩] 1 2 5) 1 2 =
       some ⟨0, 1, 2, "Applied", some 5⟩ ∧
     execute_application 1 2 5 false ⟨[1], [2], [⟨0, 1, 2, "Failed", some 0⟩], [], 1⟩ =
       Except.error ()) :=
  ⟨by decide, by decide, rfl, Or.inr rfl,
   C2_execute_overwrites_terminal 1 2 5 _ ⟨0, 1, 2, "Failed", some 0⟩
     (by decide) (by decide) rfl (Or.inr rfl)⟩

/-- C3 counterexample: on a Pending record with resolvable ids, an executor
failure does NOT set the record to `Failed` — there is no try/except around
`run_selenium_apply`, so the exception propagates out of
`execute_application` (crashing the caller) before any store write: no
state is committed at all, and the record (still in the original store)
remains `Pending`. -/
theorem C3_counterexample :
    execute_application 1 2 5 false ⟨[1], [2], [⟨0, 1, 2, "Pending", none⟩], [], 1⟩ =
      Except.error () ∧
    findApp (⟨[1], [2], [⟨0, 1, 2, "Pending", none⟩], [], 1⟩ : St).apps 1 2 =
      some ⟨0, 1, 2, "Pending", none⟩ :=
  ⟨rfl, rfl⟩

/-- C3 amended: on a Pending record with resolvable ids, a successful
Execute sets the record's status to `Applied` with `applied_at` = now; a
failing Execute propagates the executor's exception to the caller and
leaves the store unchanged — no `Failed` status is ever recorded by the
code (the string `'Failed'` never appears in it). -/
theorem C3_execute_outcomes (uid jid now : Nat) (s : St) (a : Application)
    (hu : uid ∈ s.users) (hj : jid ∈ s.jobs)
    (hfind : findApp s.apps uid jid = some a)
    (_hpend : a.status = "Pending") :
    (execute_application uid jid now true s =
       Except.ok { s with apps := updateFirst s.apps uid jid now } ∧
     findApp (updateFirst s.apps uid jid now) uid jid =
       some { a with status := "Applied", applied_at := some now }) ∧
    execute_application uid jid now false s = Except.error () :=
  ⟨⟨(execute_application_found hu hj hfind).1, findApp_updateFirst hfind now⟩,
   (execute_application_found hu hj hfind).2⟩

theorem C3_witness :
    (1 : Nat) ∈ [1] ∧ (2 : Nat) ∈ [2] ∧
    findApp [⟨0, 1, 2, "Pending", none⟩] 1 2 = some ⟨0, 1, 2, "Pending", none⟩ ∧
    ((execute_application 1 2 5 true ⟨[1], [2], [⟨0, 1, 2, "Pending", none⟩], [], 1⟩ =
        Except.ok { (⟨[1], [2], [⟨0, 1, 2, "Pending", none⟩], [], 1⟩ : St) with
          apps := updateFirst [⟨0, 1, 2, "Pending", none⟩] 1 2 5 } ∧
      findApp (updateFirst [⟨0, 1, 2, "Pending", none⟩] 1 2 5) 1 2 =
        some ⟨0, 1, 2, "Applied", some 5⟩) ∧
     execute_application 1 2 5 false ⟨[1], [2], [⟨0, 1, 2, "Pending", none⟩], [], 1⟩ =
       Except.error ()) :=
  ⟨by decide, by decide, rfl,
   C3_execute_outcomes 1 2 5 _ ⟨0, 1, 2, "Pending", none⟩
     (by decide) (by decide) rfl rfl⟩

/-- C5: a RequestApplication call with a (parsable) scheduleTime that
passes the id and duplicate checks registers the deferred task under the
scheduler id `apply_{userId}_{jobId}` with replace-existing semantics —
the resulting job store is exactly `addJobReplace` of the previous one —
and registering under that key twice leaves exactly one task for the key,
carrying the second registration's fire time (the scheduler fires each
stored date task once, so that is exactly one firing, at the second time). -/
theorem C5_schedule_replace_existing (uid jid t now : Nat) (ok : Bool)
    (s : St) (hu : uid ∈ s.users) (hj : jid ∈ s.jobs)
    (hnew : findApp s.apps uid jid = none) :
    (apply_job_route uid jid (some (SchedTime.valid t)) now ok s).2.sched =
      addJobReplace s.sched (applyKey uid jid) t uid jid ∧
    ∀ (sched : List (String × SchedTask)) (t1 t2 : Nat),
      tasksFor (addJobReplace (addJobReplace sched (applyKey uid jid) t1 uid jid)
          (applyKey uid jid) t2 uid jid) (applyKey uid jid) =
        [⟨t2, uid, jid⟩] := by
  constructor
  · unfold apply_job_route
    rw [if_pos ⟨hu, hj⟩, hnew]
    rfl
  · intro sched t1 t2
    exact tasksFor_addJobReplace _ _ t2 uid jid

theorem C5_witness :
    (1 : Nat) ∈ [1] ∧ (2 : Nat) ∈ [2] ∧
    findApp ([] : List Application) 1 2 = none ∧
    applyKey 1 2 = "apply_1_2" ∧
    (apply_job_route 1 2 (some (SchedTime.valid 7)) 0 true
        ⟨[1], [2], [], [], 0⟩).2.sched =
      addJobReplace [] (applyKey 1 2) 7 1 2 ∧
    tasksFor (addJobReplace (addJobReplace [] (applyKey 1 2) 3 1 2)
        (applyKey 1 2) 7 1 2) (applyKey 1 2) = [⟨7, 1, 2⟩] :=
  have h := C5_schedule_replace_existing 1 2 7 0 true ⟨[1], [2], [], [], 0⟩
    (by decide) (by decide) rfl
  ⟨by decide, by decide, rfl, rfl, h.1, h.2 [] 3 7⟩

/-- C6 counterexample: `execute_application` on a resolvable pair with no
existing record and a successful executor run INSERTS a record whose
initial status is `Applied` (the `else` branch of the source), refuting
“no operation of the core inserts a record whose initial status is Applied
or Failed” and “created only by a RequestApplication call”. -/
theorem C6_counterexample :
    execute_application 1 2 5 true ⟨[1], [2], [], [], 0⟩ =
      Except.ok ⟨[1], [2], [⟨0, 1, 2, "Applied", some 5⟩], [], 1⟩ :=
  rfl

/-- C6 amended: records created by RequestApplication enter the store with
status `Pending` (shown on the deferred path, where no execution follows
the insert), and no operation ever deletes a record (both operations
preserve every stored row's key); however, Execute called on a resolvable
pair with no existing record inserts — after a successful executor run — a
record whose initial status is `Applied`. -/
theorem C6_record_lifecycle (uid jid : Nat) (s : St)
    (hu : uid ∈ s.users) (hj : jid ∈ s.jobs)
    (hnew : findApp s.apps uid jid = none) :
    (∀ t now ok,
      (apply_job_route uid jid (some (SchedTime.valid t)) now ok s).2.apps =
        s.apps ++ [⟨s.nextId, uid, jid, "Pending", none⟩]) ∧
    (∀ uid' jid' st' now' ok', keysPreserved s.apps
        ((apply_job_route uid' jid' st' now' ok' s).2).apps) ∧
    (∀ uid' jid' now' ok' s',
      execute_application uid' jid' now' ok' s = Except.ok s' →
        keysPreserved s.apps s'.apps) ∧
    (∀ now, execute_application uid jid now true s = Except.ok { s with
        apps := s.apps ++ [⟨s.nextId, uid, jid, "Applied", some now⟩],
        nextId := s.nextId + 1 }) := by
  refine ⟨?_, ?_, ?_, ?_⟩
  · intro t now ok
    unfold apply_job_route
    rw [if_pos ⟨hu, hj⟩, hnew]
    rfl
  · intro uid' jid' st' now' ok'
    exact apply_job_route_keysPreserved uid' jid' st' now' ok' s
  · intro uid' jid' now' ok' s' he
    exact execute_application_keysPreserved he
  · intro now
    unfold execute_application
    rw [if_pos ⟨hu, hj⟩, hnew]
    rfl

theorem C6_witness :
    (1 : Nat) ∈ [1] ∧ (2 : Nat) ∈ [2] ∧
    findApp ([] : List Application) 1 2 = none ∧
    (apply_job_route 1 2 (some (SchedTime.valid 7)) 0 true
        ⟨[1], [2], [], [], 0⟩).2.apps = [] ++ [⟨0, 1, 2, "Pending", none⟩] ∧
    keysPreserved []
      ((apply_job_route 1 2 none 0 true ⟨[1], [2], [], [], 0⟩).2).apps ∧
    execute_application 1 2 5 true ⟨[1], [2], [], [], 0⟩ =
      Except.ok { (⟨[1], [2], [], [], 0⟩ : St) with
        apps := [] ++ [⟨0, 1, 2, "Applied", some 5⟩], nextId := 1 } :=
  have h := C6_record_lifecycle 1 2 ⟨[1], [2], [], [], 0⟩
    (by decide) (by decide) rfl
  ⟨by decide, by decide, rfl, h.1 7 0 true, h.2.1 1 2 none 0 true,
   h.2.2.2 5⟩

/-- C8 counterexample: the route never checks that the parsed instant is in
the future.  Here the schedule time parses to instant 0 while the call
happens at time 100 — a past instant, hence not “a valid future instant” —
yet the call succeeds with `scheduled 0` instead of failing with
InvalidSchedule. -/
theorem C8_counterexample :
    (0 : Nat) < 100 ∧
    apply_job_route 1 2 (some (SchedTime.valid 0)) 100 true
        ⟨[1], [2], [], [], 0⟩ =
      (ApplyResult.scheduled 0,
        ⟨[1], [2], [⟨0, 1, 2, "Pending", none⟩],
         [(applyKey 1 2, ⟨0, 1, 2⟩)], 1⟩) :=
  ⟨by decide, rfl⟩

/-- C8 amended: for a RequestApplication call that passes the id and
duplicate checks and carries a scheduleTime, the call fails with
InvalidSchedule (`'Invalid datetime'`) exactly when `strptime` fails to
parse the string — whether the parsed instant lies in the future is never
checked — and on parse success it returns the acknowledgement carrying the
parsed fire time. -/
theorem C8_invalid_schedule_iff_parse_failure (uid jid now : Nat)
    (ok : Bool) (s : St) (x : SchedTime) (hu : uid ∈ s.users)
    (hj : jid ∈ s.jobs) (hnew : findApp s.apps uid jid = none) :
    ((apply_job_route uid jid (some x) now ok s).1 =
        ApplyResult.invalidDatetime ↔ x = SchedTime.malformed) ∧
    ∀ t, x = SchedTime.valid t →
      (apply_job_route uid jid (some x) now ok s).1 =
        ApplyResult.scheduled t := by
  constructor
  · cases x with
    | valid t =>
      unfold apply_job_route
      rw [if_pos ⟨hu, hj⟩, hnew]
      simp
    | malformed =>
      unfold apply_job_route
      rw [if_pos ⟨hu, hj⟩, hnew]
      simp
  · rintro t rfl
    unfold apply_job_route
    rw [if_pos ⟨hu, hj⟩, hnew]
    rfl

theorem C8_witness :
    (1 : Nat) ∈ [1] ∧ (2 : Nat) ∈ [2] ∧
    findApp ([] : List Application) 1 2 = none ∧
    ((apply_job_route 1 2 (some SchedTime.malformed) 0 true
        ⟨[1], [2], [], [], 0⟩).1 = ApplyResult.invalidDatetime ↔
      SchedTime.malformed = SchedTime.malformed) ∧
    (apply_job_route 1 2 (some (SchedTime.valid 7)) 0 true
        ⟨[1], [2], [], [], 0⟩).1 = ApplyResult.scheduled 7 :=
  ⟨by decide, by decide, rfl,
   (C8_invalid_schedule_iff_parse_failure 1 2 0 true ⟨[1], [2], [], [], 0⟩
     SchedTime.malformed (by decide) (by decide) rfl).1,
   (C8_invalid_schedule_iff_parse_failure 1 2 0 true ⟨[1], [2], [], [], 0⟩
     (SchedTime.valid 7) (by decide) (by decide) rfl).2 7 rfl⟩

/-- C9: when the ids resolve, no record exists for the pair, and the
scheduleTime string fails to parse, the route returns
`'Invalid datetime'` — but the Pending record was already committed before
the parse, so it stays in the store, and every subsequent
RequestApplication for the same pair (any arguments) fails with
DuplicateApplication and changes nothing. -/
theorem C9_parse_failure_leaks_pending_record (uid jid now : Nat)
    (ok : Bool) (s : St) (hu : uid ∈ s.users) (hj : jid ∈ s.jobs)
    (hnew : findApp s.apps uid jid = none) :
    (apply_job_route uid jid (some SchedTime.malformed) now ok s).1 =
      ApplyResult.invalidDatetime ∧
    findApp ((apply_job_route uid jid (some SchedTime.malformed) now ok
        s).2).apps uid jid = some ⟨s.nextId, uid, jid, "Pending", none⟩ ∧
    ∀ st' now' ok',
      apply_job_route uid jid st' now' ok'
          (apply_job_route uid jid (some SchedTime.malformed) now ok s).2 =
        (ApplyResult.alreadyApplied,
          (apply_job_route uid jid (some SchedTime.malformed) now ok s).2) := by
  have hroute : apply_job_route uid jid (some SchedTime.malformed) now ok s =
      (ApplyResult.invalidDatetime, createRecord uid jid s) := by
    unfold apply_job_route
    rw [if_pos ⟨hu, hj⟩, hnew]
    rfl
  have hfind : findApp (createRecord uid jid s).apps uid jid =
      some ⟨s.nextId, uid, jid, "Pending", none⟩ := by
    show findApp (s.apps ++ [⟨s.nextId, uid, jid, "Pending", none⟩]) uid jid = _
    rw [findApp_append_of_none hnew]
    simp [findApp]
  refine ⟨by rw [hroute], by rw [hroute]; exact hfind, ?_⟩
  intro st' now' ok'
  rw [hroute]
  show apply_job_route uid jid st' now' ok' (createRecord uid jid s) = _
  unfold apply_job_route
  rw [if_pos ⟨hu, hj⟩, hfind]
  rfl

theorem C9_witness :
    (1 : Nat) ∈ [1] ∧ (2 : Nat) ∈ [2] ∧
    findApp ([] : List Application) 1 2 = none ∧
    (apply_job_route 1 2 (some SchedTime.malformed) 0 true
        ⟨[1], [2], [], [], 0⟩).1 = ApplyResult.invalidDatetime ∧
    findApp ((apply_job_route 1 2 (some SchedTime.malformed) 0 true
        ⟨[1], [2], [], [], 0⟩).2).apps 1 2 =
      some ⟨0, 1, 2, "Pending", none⟩ ∧
    apply_job_route 1 2 none 9 true
        (apply_job_route 1 2 (some SchedTime.malformed) 0 true
          ⟨[1], [2], [], [], 0⟩).2 =
      (ApplyResult.alreadyApplied,
        (apply_job_route 1 2 (some SchedTime.malformed) 0 true
          ⟨[1], [2], [], [], 0⟩).2) :=
  have h := C9_parse_failure_leaks_pending_record 1 2 0 true
    ⟨[1], [2], [], [], 0⟩ (by decide) (by decide) rfl
  ⟨by decide, by decide, rfl, h.1, h.2.1, h.2.2 none 9 true⟩

end JobBot
